import Mathlib

/-!
Verification of the natural-language specification of
`src/conceptnet.py` (repository `Jorgelmh/fine-tuning-transformers`)
against a shallow Lean embedding of that file.

Modelling conventions, used throughout:

* Python numbers (ints and floats) are modelled by `PyFloat`, an exact
  decimal `man / 10 ^ exp`.  The program only ever compares weights and
  stores them (it performs no arithmetic on them), so exact decimals are a
  faithful model of the float literals appearing in JSON responses.
* Parsed JSON values are modelled by `Json`.  Arrays and objects are
  cons-chains inside the same inductive so that all recursion stays
  structural (and hence kernel-computable); `Json.jarr`/`Json.jobj` build
  them from lists.  Python's `None` (both JSON `null` and the `None`
  returned by `dict.get` on a missing key) is `Json.null`.
* Python exceptions are modelled by `Except PyError`; `requests.get` is a
  pure oracle `fetch : String → Json` supplied by the caller, i.e. the
  remote service's (already JSON-decoded) response for each request URL.
  Network failures and non-JSON bodies are outside the claims treated
  here, so the oracle is total.
* Python `str` methods (`strip`, `lower`, `startswith`, ...) and the two
  regular expressions of the source are modelled character-wise on ASCII;
  Python's Unicode-aware case folding and whitespace classes agree with
  this model on every input exercised below.
-/

inductive PyError where
  | attributeError : PyError
  | typeError : PyError
  | indexError : PyError
  deriving DecidableEq, Repr

/-- Exact decimal number `man / 10 ^ exp`, modelling Python ints
(`exp = 0`) and the float literals of JSON responses. -/
structure PyFloat where
  man : Int
  exp : Nat
  deriving DecidableEq, Repr

instance : OfScientific PyFloat :=
  ⟨fun m b e => if b then ⟨(m : Int), e⟩ else ⟨(m : Int) * (10 : Int) ^ e, 0⟩⟩

instance (n : Nat) : OfNat PyFloat n := ⟨⟨(n : Int), 0⟩⟩

instance : Neg PyFloat := ⟨fun a => ⟨-a.man, a.exp⟩⟩

instance : LT PyFloat := ⟨fun a b => a.man * (10 : Int) ^ b.exp < b.man * (10 : Int) ^ a.exp⟩

instance : LE PyFloat := ⟨fun a b => a.man * (10 : Int) ^ b.exp ≤ b.man * (10 : Int) ^ a.exp⟩

instance (a b : PyFloat) : Decidable (a < b) :=
  inferInstanceAs (Decidable (a.man * (10 : Int) ^ b.exp < b.man * (10 : Int) ^ a.exp))

instance (a b : PyFloat) : Decidable (a ≤ b) :=
  inferInstanceAs (Decidable (a.man * (10 : Int) ^ b.exp ≤ b.man * (10 : Int) ^ a.exp))

def PyFloat.toRat (a : PyFloat) : ℚ := (a.man : ℚ) / (10 : ℚ) ^ a.exp

/-- Parsed JSON values (plus Python `None`, which `null` also stands for).
Arrays and objects are encoded as cons-chains inside the same type so
that every function on them is structurally recursive. -/
inductive Json where
  | null : Json
  | bool (b : Bool) : Json
  | num (q : PyFloat) : Json
  | str (s : String) : Json
  | arrNil : Json
  | arrCons (x : Json) (rest : Json) : Json
  | objNil : Json
  | objCons (k : String) (v : Json) (rest : Json) : Json
  deriving DecidableEq, Repr

def Json.jarr (xs : List Json) : Json := xs.foldr Json.arrCons Json.arrNil

def Json.jobj (kvs : List (String × Json)) : Json :=
  kvs.foldr (fun kv r => Json.objCons kv.1 kv.2 r) Json.objNil

def Json.isDict : Json → Bool
  | .objNil => true
  | .objCons _ _ _ => true
  | _ => false

def Json.isArr : Json → Bool
  | .arrNil => true
  | .arrCons _ _ => true
  | _ => false

/-- First value stored under key `k` (Python dicts have unique keys, so
first-match lookup is faithful). -/
def objLookup : Json → String → Option Json
  | .objCons k v rest, key => if k = key then some v else objLookup rest key
  | _, _ => none

/-- Elements of an array chain. -/
def chainToList : Json → List Json
  | .arrCons x rest => x :: chainToList rest
  | _ => []

/-- Python truthiness of a JSON value. -/
def pyTruthy : Json → Bool
  | .null => false
  | .bool b => b
  | .num q => q.man ≠ 0
  | .str s => s ≠ ""
  | .arrNil => false
  | .arrCons _ _ => true
  | .objNil => false
  | .objCons _ _ _ => true

/-- `d.get(k, default)`: raises `AttributeError` when the receiver is not
a dict, exactly as Python does. -/
def pyGetD (j : Json) (k : String) (d : Json) : Except PyError Json :=
  if j.isDict then .ok ((objLookup j k).getD d) else .error .attributeError

/-- `d.get(k)` — missing keys give Python `None`, i.e. `Json.null`. -/
def pyGet (j : Json) (k : String) : Except PyError Json := pyGetD j k Json.null

/-- Total lookup-with-default used only to state theorems about dicts. -/
def jGetD (j : Json) (k : String) (d : Json) : Json := (objLookup j k).getD d

/- ### Python string primitives, modelled character-wise -/

/-- The characters Python's `str.strip()` and the regex class `\s` treat
as whitespace (ASCII part; the Unicode extras never occur here). -/
def pyWs (c : Char) : Bool :=
  c = ' ' || c = '\t' || c = '\n' || c = '\r' || c = '\x0b' || c = '\x0c'

/-- Drop trailing whitespace. -/
def rdropWs (l : List Char) : List Char := (l.reverse.dropWhile pyWs).reverse

def pyStripList (l : List Char) : List Char := rdropWs (l.dropWhile pyWs)

/-- `str.strip()`. -/
def pyStrip (s : String) : String := ⟨pyStripList s.data⟩

/-- `str.lower()` (ASCII case folding; Python's Unicode folding agrees on
all inputs exercised by the claims). -/
def strLower (s : String) : String := ⟨s.data.map Char.toLower⟩

/-- One pass of `re.sub(r"\s+", repl, s)`: every maximal whitespace run
becomes the single character `repl`.  The flag records whether we are
inside a run. -/
def collapseWsAux (repl : Char) : Bool → List Char → List Char
  | _, [] => []
  | inRun, c :: rest =>
    if pyWs c then
      if inRun then collapseWsAux repl true rest
      else repl :: collapseWsAux repl true rest
    else c :: collapseWsAux repl false rest

def collapseWs (repl : Char) (s : String) : String := ⟨collapseWsAux repl false s.data⟩

/-- `re.sub(r"[^...]+", "", s)` for a character class `p`. -/
def filterChars (p : Char → Bool) (s : String) : String := ⟨s.data.filter p⟩

def isPrefixList : List Char → List Char → Bool
  | [], _ => true
  | _ :: _, [] => false
  | p :: ps, c :: cs => p = c && isPrefixList ps cs

/-- `s.startswith(p)`. -/
def pyStartsWith (s p : String) : Bool := isPrefixList p.data s.data

/-- `s.startswith((p₁, p₂, ...))`. -/
def startsWithAny (s : String) (ps : List String) : Bool := ps.any (pyStartsWith s)

/-- `s.endswith(p)`. -/
def pyEndsWith (s p : String) : Bool := isPrefixList p.data.reverse s.data.reverse

/-- `s.replace(c, d)` for one-character patterns (the only shape the
source uses: `"_" → " "`). -/
def charReplace (c d : Char) (s : String) : String :=
  ⟨s.data.map (fun x => if x = c then d else x)⟩

/-- `s.split("/")[-1]`: the suffix after the last slash (`split` always
returns a non-empty list, so the indexing never fails). -/
def lastSlashSegment (s : String) : String :=
  ⟨(s.data.reverse.takeWhile (fun c => c ≠ '/')).reverse⟩

def digitsToNat (l : List Char) : Nat :=
  l.foldl (fun a c => a * 10 + (c.toNat - 48)) 0

/-- Exponent part of a float literal (`e±digits` or nothing). -/
def parseExpPart : List Char → Option (Int × List Char)
  | [] => some (0, [])
  | c :: r =>
    if c = 'e' || c = 'E' then
      let sr : Int × List Char :=
        match r with
        | '+' :: rr => (1, rr)
        | '-' :: rr => (-1, rr)
        | _ => (1, r)
      let dr := sr.2.span Char.isDigit
      if dr.1.isEmpty then none
      else some (sr.1 * (digitsToNat dr.1 : Int), dr.2)
    else none

/-- `float(s)` on strings: optional sign, decimal digits with optional
point and exponent.  (Python additionally accepts `inf`/`nan` and digit
underscores; no claim involves those, and rejecting them only makes
`_weight` coerce to `0.0`, the same as any other unparsable string.) -/
def pyParseFloat (s : String) : Option PyFloat := do
  let t0 := pyStripList s.data
  let st : Int × List Char :=
    match t0 with
    | '+' :: r => (1, r)
    | '-' :: r => (-1, r)
    | _ => (1, t0)
  let sgn := st.1
  let ipt := st.2.span Char.isDigit
  let ip := ipt.1
  let fpt : List Char × List Char :=
    match ipt.2 with
    | '.' :: r => r.span Char.isDigit
    | _ => ([], ipt.2)
  let fp := fpt.1
  if ip.isEmpty && fp.isEmpty then none else
  let ext ← parseExpPart fpt.2
  if !ext.2.isEmpty then none else
  let digits : Int := (digitsToNat (ip ++ fp) : Int)
  let e : Int := ext.1 - (fp.length : Int)
  if 0 ≤ e then some ⟨sgn * digits * (10 : Int) ^ e.toNat, 0⟩
  else some ⟨sgn * digits, (-e).toNat⟩

/-- `float(x)` on an arbitrary value: `none` models the `TypeError` /
`ValueError` cases that `_weight` catches. -/
def pyFloat : Json → Option PyFloat
  | .num q => some q
  | .bool b => some ⟨if b then 1 else 0, 0⟩
  | .str s => pyParseFloat s
  | _ => none

def natDigitsAux : Nat → Nat → List Char
  | 0, _ => []
  | fuel + 1, n =>
    if n < 10 then [Char.ofNat (n + 48)]
    else natDigitsAux fuel (n / 10) ++ [Char.ofNat (n % 10 + 48)]

def natDigits (n : Nat) : List Char := natDigitsAux (n + 1) n

/-- Decimal rendering of a `PyFloat`, matching Python's `str` on ints
(`exp = 0`) and on floats written with an explicit point (`str(5.0)` is
`"5.0"`, `str(3.20)` is `"3.2"`). -/
def pyFloatRepr (q : PyFloat) : String :=
  let sign : List Char := if q.man < 0 then ['-'] else []
  let ds := natDigits q.man.natAbs
  if q.exp = 0 then ⟨sign ++ ds⟩
  else
    let ds := (List.replicate (q.exp + 1 - ds.length) '0') ++ ds
    let ip := ds.take (ds.length - q.exp)
    let fp := ds.drop (ds.length - q.exp)
    let fp' := (fp.reverse.dropWhile (fun c => c = '0')).reverse
    let fp'' := if fp'.isEmpty then ['0'] else fp'
    ⟨sign ++ ip ++ '.' :: fp''⟩

/-- Python `str(x)`.  `None`/bools/numbers/strings are modelled exactly;
the `repr` of nested containers (never a label in any claim, and only
reachable through a container-typed `"label"` field) is abbreviated to an
opaque non-empty marker, which preserves its truthiness. -/
def pyStr : Json → String
  | .null => "None"
  | .bool true => "True"
  | .bool false => "False"
  | .num q => pyFloatRepr q
  | .str s => s
  | .arrNil => "[]"
  | .arrCons _ _ => "[...]"
  | .objNil => "\x7b\x7d"
  | .objCons _ _ _ => "\x7b...\x7d"

/- ### The embedded source: `src/conceptnet.py` -/

def CONCEPTNET_API : String := "https://api.conceptnet.io"

/-- `DEFAULT_RELATIONS` (a Python `set` of strings; sets are modelled as
lists since the program only tests membership, truthiness and passes
them around). -/
def DEFAULT_RELATIONS : List String :=
  ["IsA", "PartOf", "HasA",
   "UsedFor", "CapableOf", "ReceivesAction",
   "AtLocation", "LocatedNear", "HasProperty"]

def isIdentChar (c : Char) : Bool :=
  ('a' ≤ c && c ≤ 'z') || ('0' ≤ c && c ≤ '9') || c = '_'

/-- `_norm`. -/
def _norm (s : String) : String :=
  let s := strLower (pyStrip s)
  let s := collapseWs '_' s
  filterChars isIdentChar s

/-- `_to_en_uri`. -/
def _to_en_uri (concept : String) : String := "/c/en/" ++ _norm concept

/-- `_as_label` (its `dict.get` calls cannot raise once the
`isinstance(end, dict)` test has passed, hence the total `jGetD`). -/
def _as_label (e : Json) : String :=
  if e.isDict then
    let lbl := jGetD e "label" Json.null
    if pyTruthy lbl then pyStrip (pyStr lbl)
    else
      match jGetD e "@id" Json.null with
      | .str s => pyStrip (charReplace '_' ' ' (lastSlashSegment s))
      | _ => ""
  else ""

/-- `_weight`: `float(edge.get("weight", 0.0))` with every conversion
failure caught and coerced to `0.0`. -/
def _weight (e : Json) : Except PyError PyFloat := do
  let w ← pyGetD e "weight" (Json.num 0.0)
  pure ((pyFloat w).getD 0.0)

/-- `_choose_article` (`phrase or ""` is the identity on strings). -/
def _choose_article (phrase : String) : String :=
  let w := strLower (pyStrip phrase)
  match w.data with
  | [] => "a"
  | c :: _ => if "aeiou".data.contains c then "an" else "a"

/-- `_maybe_article` (`noun or ""` is the identity on strings). -/
def _maybe_article (noun : String) : String :=
  let n := pyStrip noun
  if n = "" then n
  else
    let lower := strLower n
    if startsWithAny lower ["a ", "an ", "the ", "this ", "that ", "these ", "those "] then n
    else if pyEndsWith lower "s" && !(pyEndsWith lower "ss" || pyEndsWith lower "us") then n
    else _choose_article n ++ " " ++ n

/-- `REL_TEMPLATES`: the per-relation sentence templates, in source
order. -/
def REL_TEMPLATES : List (String × (String → String → String)) :=
  [("IsA", fun s o =>
      _maybe_article s ++ " is " ++
        (if !(startsWithAny (strLower o) ["a ", "an ", "the "]) then _maybe_article o else o)),
   ("PartOf", fun s o => _maybe_article s ++ " is part of " ++ _maybe_article o),
   ("HasA", fun s o => _maybe_article s ++ " has " ++ _maybe_article o),
   ("UsedFor", fun s o => _maybe_article s ++ " is used for " ++ o),
   ("CapableOf", fun s o => _maybe_article s ++ " can " ++ o),
   ("ReceivesAction", fun s o => _maybe_article s ++ " can be " ++ o),
   ("AtLocation", fun s o => _maybe_article s ++ " is often found in " ++ _maybe_article o),
   ("LocatedNear", fun s o => _maybe_article s ++ " is often near " ++ _maybe_article o),
   ("HasProperty", fun s o => _maybe_article s ++ " can be " ++ o)]

/-- `rel in REL_TEMPLATES` / `REL_TEMPLATES[rel]` combined. -/
def relTemplate (rel : String) : Option (String → String → String) :=
  (REL_TEMPLATES.find? (fun p => p.1 == rel)).map Prod.snd

/-- `sent[0].upper() + sent[1:]` — raises `IndexError` on the empty
string, exactly as Python indexing does. -/
def pySentenceCase (s : String) : Except PyError String :=
  match s.data with
  | [] => .error .indexError
  | c :: rest => .ok ⟨c.toUpper :: rest⟩

/-- `_edge_to_sentence`, generalised to the value actually found in a
fact key: the pipeline stores whatever `edge["rel"]["label"]` held, and
Python would interpolate `str(rel)` into the fallback f-string.  For a
string relation this is `_edge_to_sentence` of the source verbatim. -/
def edgeSentenceCore (start : String) (rel : Json) (endL : String) : Except PyError String :=
  let s := pyStrip (charReplace '_' ' ' start)
  let o := pyStrip (charReplace '_' ' ' endL)
  let sent :=
    match rel with
    | .str r =>
      match relTemplate r with
      | some t => t s o
      | none => _maybe_article s ++ " " ++ r ++ " " ++ o
    | _ => _maybe_article s ++ " " ++ pyStr rel ++ " " ++ o
  let sent := pyStrip (collapseWs ' ' sent)
  (pySentenceCase sent).map (fun c => c ++ ".")

/-- `_edge_to_sentence` with the source's `str` signature. -/
def _edge_to_sentence (start rel endL : String) : Except PyError String :=
  edgeSentenceCore start (Json.str rel) endL

/-- Fact keys: `(start_label, rel_label_value, end_label)`.  The middle
component is the raw `rel.label` value; `keep_edge` guarantees it is a
string for every edge that reaches the accumulation map. -/
abbrev FactKey := String × Json × String

abbrev BestMap := List (FactKey × PyFloat)

/-- Lookup in the insertion-ordered model of the Python dict `best`. -/
def getVal : BestMap → FactKey → Option PyFloat
  | [], _ => none
  | (k', w) :: rest, k => if k' = k then some w else getVal rest k

/-- `best[key] = w`: updates in place, appends when absent (Python dicts
preserve first-insertion order). -/
def setVal : BestMap → FactKey → PyFloat → BestMap
  | [], k, w => [(k, w)]
  | (k', w') :: rest, k, w =>
    if k' = k then (k', w) :: rest else (k', w') :: setVal rest k w

/-- `best.get(key, d)`. -/
def bestGetD (b : BestMap) (k : FactKey) (d : PyFloat) : PyFloat := (getVal b k).getD d

/-- `if w > best.get(key, -1.0): best[key] = w`. -/
def insertStep (b : BestMap) (p : FactKey × PyFloat) : BestMap :=
  if bestGetD b p.1 (-1.0) < p.2 then setVal b p.1 p.2 else b

/-- `rels = relations or DEFAULT_RELATIONS` (an empty or absent set is
falsy, so the default applies). -/
def resolveRelations (relations : Option (List String)) : List String :=
  match relations with
  | none => DEFAULT_RELATIONS
  | some rs => if rs.isEmpty then DEFAULT_RELATIONS else rs

/-- `rel in rels` for the raw `rel.label` value: Python set membership;
a non-string value never equals a member of a set of strings. -/
def relMem (v : Json) (rels : List String) : Bool :=
  match v with
  | .str s => rels.contains s
  | _ => false

/-- `keep_edge`. -/
def keep_edge (rels : List String) (min_weight : PyFloat) (e : Json) : Except PyError Bool := do
  let relObj ← pyGetD e "rel" Json.objNil
  let rel ← pyGet relObj "label"
  -- Python `and` evaluates `_weight(e)` only when the membership test passes
  if relMem rel rels then do
    let w ← _weight e
    pure (decide (min_weight ≤ w))
  else pure false

/-- `add_edge_fact`. -/
def add_edge_fact (best : BestMap) (e : Json) : Except PyError BestMap := do
  let startL := _as_label (← pyGetD e "start" Json.objNil)
  let relObj ← pyGetD e "rel" Json.objNil
  let rel ← pyGetD relObj "label" (Json.str "")
  let endL := _as_label (← pyGetD e "end" Json.objNil)
  if !(startL != "" && pyTruthy rel && endL != "") then pure best
  else do
    let w ← _weight e
    pure (insertStep best ((startL, rel, endL), w))

/-- The body of the per-edge loop: `if keep_edge(e): add_edge_fact(e)`. -/
def stepEdge (rels : List String) (minw : PyFloat) (best : BestMap) (e : Json) :
    Except PyError BestMap := do
  if (← keep_edge rels minw e) then add_edge_fact best e else pure best

def processEdges (rels : List String) (minw : PyFloat) (best : BestMap) (es : List Json) :
    Except PyError BestMap :=
  es.foldlM (stepEdge rels minw) best

/-- `for e in (data.get("edges") or [])`: a falsy `"edges"` field yields
no iterations; iterating a truthy non-list in the Python loop always
raises before completing (its items, characters or keys, are not dicts),
modelled as an immediate error. -/
def edgesOf (data : Json) : Except PyError (List Json) := do
  let e ← pyGet data "edges"
  if !pyTruthy e then pure []
  else if e.isArr then pure (chainToList e)
  else .error .typeError

def dedupObjectsAux (seen acc : List String) : List String → List String
  | [] => acc.reverse
  | o :: rest =>
    let o2 := pyStrip o
    if o2 != "" && !(seen.contains (strLower o2)) then
      dedupObjectsAux (strLower o2 :: seen) (o2 :: acc) rest
    else dedupObjectsAux seen acc rest

/-- The object de-duplication loop (case-insensitive, order-preserving). -/
def dedupObjects (objects : List String) : List String := dedupObjectsAux [] [] objects

/-- URL of the per-object request. -/
def objUrl (per_object_limit : Int) (obj : String) : String :=
  CONCEPTNET_API ++ _to_en_uri obj ++ "?limit=" ++ toString per_object_limit

/-- URL of the pairwise request. -/
def pairUrl (pair_limit : Int) (a b : String) : String :=
  CONCEPTNET_API ++ "/query?node=" ++ _to_en_uri a ++ "&other=" ++ _to_en_uri b ++
    "&limit=" ++ toString pair_limit

/-- `itertools.combinations(objs, 2)`. -/
def pairsOf : List α → List (α × α)
  | [] => []
  | x :: xs => xs.map (fun y => (x, y)) ++ pairsOf xs

/-- One fetch phase: for each URL, fetch, extract edges, filter and
accumulate. -/
def processUrls (fetch : String → Json) (rels : List String) (minw : PyFloat)
    (best : BestMap) (urls : List String) : Except PyError BestMap :=
  urls.foldlM (fun b u => do processEdges rels minw b (← edgesOf (fetch u))) best

/-- The accumulation map `best` after both fetch phases of
`get_conceptnet_facts_for_image`.  (The source also issues one extra GET
per object, a leftover `print(requests.get(...))` whose response is
discarded; with a pure fetch oracle it has no observable effect.) -/
def bestFacts (fetch : String → Json) (objects : List String)
    (relations : Option (List String)) (per_object_limit pair_limit : Int)
    (min_weight : PyFloat) : Except PyError BestMap :=
  let rels := resolveRelations relations
  let objs := dedupObjects objects
  do
    let b1 ← processUrls fetch rels min_weight [] (objs.map (objUrl per_object_limit))
    processUrls fetch rels min_weight b1
      ((pairsOf objs).map (fun p => pairUrl pair_limit p.1 p.2))

/-- Stable insertion of one entry into a weight-descending list: placed
before the first strictly lighter entry, i.e. after all earlier entries
of equal weight — exactly where Python's stable
`sorted(key=weight, reverse=True)` puts it. -/
def insortDesc (p : FactKey × PyFloat) : BestMap → BestMap
  | [] => [p]
  | q :: rest => if q.2 < p.2 then p :: q :: rest else q :: insortDesc p rest

/-- `sorted(best.items(), key=lambda kv: kv[1], reverse=True)`. -/
def sortByWeightDesc (l : BestMap) : BestMap := l.foldl (fun acc p => insortDesc p acc) []

/-- Python slice `l[:n]`, including the negative-index semantics. -/
def pySliceTo (n : Int) (l : List α) : List α :=
  if 0 ≤ n then l.take n.toNat else l.take (l.length - (-n).toNat)

/-- `ranked`: the sorted, truncated fact list. -/
def rankedFacts (fetch : String → Json) (objects : List String)
    (relations : Option (List String)) (per_object_limit pair_limit : Int)
    (min_weight : PyFloat) (max_facts : Int) : Except PyError BestMap :=
  (bestFacts fetch objects relations per_object_limit pair_limit min_weight).map
    (fun best => pySliceTo max_facts (sortByWeightDesc best))

def mapExcept (f : α → Except ε β) : List α → Except ε (List β)
  | [] => pure []
  | x :: xs => do
    let y ← f x
    let ys ← mapExcept f xs
    pure (y :: ys)

/-- `get_conceptnet_facts_for_image`.  Python's keyword defaults are
`relations=None, per_object_limit=25, pair_limit=25, min_weight=1.0,
max_facts=40`; callers below pass them explicitly. -/
def get_conceptnet_facts_for_image (fetch : String → Json) (objects : List String)
    (relations : Option (List String)) (per_object_limit pair_limit : Int)
    (min_weight : PyFloat) (max_facts : Int) : Except PyError (List String) := do
  let ranked ← rankedFacts fetch objects relations per_object_limit pair_limit
    min_weight max_facts
  mapExcept (fun en => edgeSentenceCore en.1.1 en.1.2.1 en.1.2.2) ranked

/- ### Specification-side companions used to reason about `bestFacts` -/

/-- The `(key, weight)` contribution of a single raw edge: `none` when
the edge is filtered out or dropped, performing exactly the lookups of
`keep_edge` followed by `add_edge_fact` (so it fails on exactly the same
edges). -/
def edgeKeptPair (rels : List String) (minw : PyFloat) (e : Json) :
    Except PyError (Option (FactKey × PyFloat)) := do
  if (← keep_edge rels minw e) then do
    let startL := _as_label (← pyGetD e "start" Json.objNil)
    let relObj ← pyGetD e "rel" Json.objNil
    let rel ← pyGetD relObj "label" (Json.str "")
    let endL := _as_label (← pyGetD e "end" Json.objNil)
    if !(startL != "" && pyTruthy rel && endL != "") then pure none
    else do
      let w ← _weight e
      pure (some ((startL, rel, endL), w))
  else pure none

def keptPairs (rels : List String) (minw : PyFloat) :
    List Json → Except PyError (List (FactKey × PyFloat))
  | [] => pure []
  | e :: es => do
    let p ← edgeKeptPair rels minw e
    let ps ← keptPairs rels minw es
    pure (p.toList ++ ps)

def gatherUrls (fetch : String → Json) (rels : List String) (minw : PyFloat) :
    List String → Except PyError (List (FactKey × PyFloat))
  | [] => pure []
  | u :: us => do
    let es ← edgesOf (fetch u)
    let ps ← keptPairs rels minw es
    let rest ← gatherUrls fetch rels minw us
    pure (ps ++ rest)

/-- The stream of filtered-and-resolved `(key, weight)` pairs seen by
the whole run, in processing order. -/
def gatherKept (fetch : String → Json) (objects : List String)
    (relations : Option (List String)) (per_object_limit pair_limit : Int)
    (min_weight : PyFloat) : Except PyError (List (FactKey × PyFloat)) :=
  let rels := resolveRelations relations
  let objs := dedupObjects objects
  do
    let g1 ← gatherUrls fetch rels min_weight (objs.map (objUrl per_object_limit))
    let g2 ← gatherUrls fetch rels min_weight
      ((pairsOf objs).map (fun p => pairUrl pair_limit p.1 p.2))
    pure (g1 ++ g2)

/- ### Decidability of concrete run results -/

instance {ε α : Type} [DecidableEq ε] [DecidableEq α] : DecidableEq (Except ε α) := fun x y =>
  match x, y with
  | .ok a, .ok b =>
    match decEq a b with
    | isTrue h => isTrue (h ▸ rfl)
    | isFalse h => isFalse (fun hh => h (Except.ok.inj hh))
  | .ok _, .error _ => isFalse (fun hh => Except.noConfusion hh)
  | .error _, .ok _ => isFalse (fun hh => Except.noConfusion hh)
  | .error e, .error f =>
    match decEq e f with
    | isTrue h => isTrue (h ▸ rfl)
    | isFalse h => isFalse (fun hh => h (Except.error.inj hh))

/- ### Claim-side companion definitions -/

/-- The list of `(key, weight)` pairs carrying key `k` (claim language:
"the weights observed for that key"). -/
def weightsFor (k : FactKey) (ps : List (FactKey × PyFloat)) : List PyFloat :=
  (ps.filter (fun p => p.1 = k)).map Prod.snd

/-- Running best-seen weight with the `-1.0` sentinel, starting from an
optional previously stored value: the pure shape of the `best` update. -/
def accWeights (ws : List PyFloat) (o : Option PyFloat) : Option PyFloat :=
  ws.foldl (fun acc w => if acc.getD (-1.0) < w then some w else acc) o

/-- `_maybe_article` as C9's amended claim words it: on the trimmed
phrase, unchanged when it is empty, starts with a determiner word
followed by a space, or looks plural; otherwise `an`/`a` by the first
letter. -/
def maybeArticleClaim (noun : String) : String :=
  let n := pyStrip noun
  let lower := strLower n
  if n = "" ∨
      startsWithAny lower ["a ", "an ", "the ", "this ", "that ", "these ", "those "] = true ∨
      (pyEndsWith lower "s" = true ∧ pyEndsWith lower "ss" = false ∧
        pyEndsWith lower "us" = false) then
    n
  else
    (match lower.data with
      | c :: _ => if "aeiou".data.contains c then "an" else "a"
      | [] => "a") ++ " " ++ n

/- ### Concrete fixtures for the scenario claims -/

def edgeDogAtLocPark : Json := Json.jobj [
  ("start", Json.jobj [("label", Json.str "dog")]),
  ("rel", Json.jobj [("label", Json.str "AtLocation")]),
  ("end", Json.jobj [("label", Json.str "park")]),
  ("weight", Json.num 3.2)]

/-- Mocked service for the end-to-end scenario: one edge for `dog`,
empty responses elsewhere. -/
def oracleDogPark : String → Json := fun u =>
  if u = objUrl 25 "dog" then Json.jobj [("edges", Json.jarr [edgeDogAtLocPark])]
  else Json.jobj []

def edgeDogIsAnimal2 : Json := Json.jobj [
  ("start", Json.jobj [("label", Json.str "dog")]),
  ("rel", Json.jobj [("label", Json.str "IsA")]),
  ("end", Json.jobj [("label", Json.str "animal")]),
  ("weight", Json.num 2.0)]

def edgeDogIsAnimal5 : Json := Json.jobj [
  ("start", Json.jobj [("label", Json.str "dog")]),
  ("rel", Json.jobj [("label", Json.str "IsA")]),
  ("end", Json.jobj [("label", Json.str "animal")]),
  ("weight", Json.num 5.0)]

/-- Mocked service for the deduplication scenario: the same triple with
weights 2.0 and 5.0. -/
def oracleDedup : String → Json := fun u =>
  if u = objUrl 25 "dog" then
    Json.jobj [("edges", Json.jarr [edgeDogIsAnimal2, edgeDogIsAnimal5])]
  else Json.jobj []

def edgeNegWeight : Json := Json.jobj [
  ("start", Json.jobj [("label", Json.str "dog")]),
  ("rel", Json.jobj [("label", Json.str "IsA")]),
  ("end", Json.jobj [("label", Json.str "animal")]),
  ("weight", Json.num (-1.5))]

/-- Mocked service returning a single filtered-in edge of weight
`-1.5` (kept when `min_weight = -2.0`). -/
def oracleNegWeight : String → Json := fun u =>
  if u = objUrl 25 "dog" then Json.jobj [("edges", Json.jarr [edgeNegWeight])]
  else Json.jobj []

/-- An edge whose `"rel"` field is present but is a string, not a dict. -/
def edgeRelString : Json := Json.jobj [
  ("start", Json.jobj [("label", Json.str "dog")]),
  ("rel", Json.str "IsA"),
  ("end", Json.jobj [("label", Json.str "animal")]),
  ("weight", Json.num 5.0)]

def oracleRelString : String → Json := fun u =>
  if u = objUrl 25 "dog" then Json.jobj [("edges", Json.jarr [edgeRelString])]
  else Json.jobj []

def edgeDogHasTail2 : Json := Json.jobj [
  ("start", Json.jobj [("label", Json.str "dog")]),
  ("rel", Json.jobj [("label", Json.str "HasA")]),
  ("end", Json.jobj [("label", Json.str "tail")]),
  ("weight", Json.num 2.0)]

/-- Mocked service yielding two distinct facts with weights 5.0 and 2.0. -/
def oracleTwoFacts : String → Json := fun u =>
  if u = objUrl 25 "dog" then
    Json.jobj [("edges", Json.jarr [edgeDogIsAnimal5, edgeDogHasTail2])]
  else Json.jobj []

/-- A malformed edge: subject label entirely missing. -/
def edgeMissingStart : Json := Json.jobj [
  ("rel", Json.jobj [("label", Json.str "IsA")]),
  ("end", Json.jobj [("label", Json.str "animal")]),
  ("weight", Json.num 5.0)]


/-- The fallback rendering C1's amended claim describes: article-ised
subject, relation label verbatim, object unarticled, then the common
cleanup (whitespace collapse, strip, sentence case, trailing period). -/
def fallbackSentence (s r o : String) : Except PyError String :=
  let s' := pyStrip (charReplace '_' ' ' s)
  let o' := pyStrip (charReplace '_' ' ' o)
  let sent := _maybe_article s' ++ " " ++ r ++ " " ++ o'
  (pySentenceCase (pyStrip (collapseWs ' ' sent))).map (fun c => c ++ ".")

/- ### Order facts about `PyFloat` via the embedding into `ℚ` -/

theorem PyFloat.lt_iff_toRat {a b : PyFloat} : a < b ↔ a.toRat < b.toRat := by
  show a.man * (10 : Int) ^ b.exp < b.man * (10 : Int) ^ a.exp ↔ _
  rw [PyFloat.toRat, PyFloat.toRat,
    div_lt_div_iff₀ (by positivity) (by positivity)]
  constructor <;> intro h <;> exact_mod_cast h

theorem PyFloat.le_iff_toRat {a b : PyFloat} : a ≤ b ↔ a.toRat ≤ b.toRat := by
  show a.man * (10 : Int) ^ b.exp ≤ b.man * (10 : Int) ^ a.exp ↔ _
  rw [PyFloat.toRat, PyFloat.toRat,
    div_le_div_iff₀ (by positivity) (by positivity)]
  constructor <;> intro h <;> exact_mod_cast h

theorem PyFloat.le_rfl' (a : PyFloat) : a ≤ a := by
  rw [PyFloat.le_iff_toRat]

theorem PyFloat.le_of_not_lt' {a b : PyFloat} (h : ¬ b < a) : a ≤ b := by
  rw [PyFloat.le_iff_toRat]
  rw [PyFloat.lt_iff_toRat] at h
  exact not_lt.mp h

theorem PyFloat.le_of_lt' {a b : PyFloat} (h : a < b) : a ≤ b := by
  rw [PyFloat.le_iff_toRat]
  rw [PyFloat.lt_iff_toRat] at h
  exact le_of_lt h

theorem PyFloat.le_trans' {a b c : PyFloat} (h₁ : a ≤ b) (h₂ : b ≤ c) : a ≤ c := by
  rw [PyFloat.le_iff_toRat] at *
  exact le_trans h₁ h₂

theorem PyFloat.lt_of_le_of_lt' {a b c : PyFloat} (h₁ : a ≤ b) (h₂ : b < c) : a < c := by
  rw [PyFloat.lt_iff_toRat] at *
  rw [PyFloat.le_iff_toRat] at h₁
  exact lt_of_le_of_lt h₁ h₂

theorem PyFloat.lt_of_lt_of_le' {a b c : PyFloat} (h₁ : a < b) (h₂ : b ≤ c) : a < c := by
  rw [PyFloat.lt_iff_toRat] at *
  rw [PyFloat.le_iff_toRat] at h₂
  exact lt_of_lt_of_le h₁ h₂

/- ### The accumulation map: lookup, update, fold characterisation -/

theorem getVal_setVal_self (b : BestMap) (k : FactKey) (w : PyFloat) :
    getVal (setVal b k w) k = some w := by
  induction b with
  | nil => simp [setVal, getVal]
  | cons p rest ih =>
    obtain ⟨k', w'⟩ := p
    by_cases h : k' = k <;> simp [setVal, getVal, h, ih]

theorem getVal_setVal_ne (b : BestMap) {k k' : FactKey} (w : PyFloat) (h : k' ≠ k) :
    getVal (setVal b k' w) k = getVal b k := by
  induction b with
  | nil => simp [setVal, getVal, h]
  | cons p rest ih =>
    obtain ⟨k'', w''⟩ := p
    by_cases h2 : k'' = k' <;> simp [setVal, getVal, h2, ih]
    subst h2
    simp [h]

theorem getVal_eq_none_iff (b : BestMap) (k : FactKey) :
    getVal b k = none ↔ k ∉ b.map Prod.fst := by
  induction b with
  | nil => simp [getVal]
  | cons p rest ih =>
    obtain ⟨k', w'⟩ := p
    by_cases h : k' = k
    · subst h
      simp [getVal]
    · have h' : k ≠ k' := fun hh => h hh.symm
      simp [getVal, h, h', ih]

theorem keys_setVal_mem (b : BestMap) (k : FactKey) (w : PyFloat)
    (h : ¬ getVal b k = none) : (setVal b k w).map Prod.fst = b.map Prod.fst := by
  induction b with
  | nil => simp [getVal] at h
  | cons p rest ih =>
    obtain ⟨k', w'⟩ := p
    by_cases h2 : k' = k <;> simp [setVal, h2]
    exact ih (by simpa [getVal, h2] using h)

theorem keys_setVal_not_mem (b : BestMap) (k : FactKey) (w : PyFloat)
    (h : getVal b k = none) : (setVal b k w).map Prod.fst = b.map Prod.fst ++ [k] := by
  induction b with
  | nil => simp [setVal]
  | cons p rest ih =>
    obtain ⟨k', w'⟩ := p
    by_cases h2 : k' = k
    · simp [getVal, h2] at h
    · simp [setVal, h2]
      exact ih (by simpa [getVal, h2] using h)

theorem nodup_insertStep (b : BestMap) (p : FactKey × PyFloat)
    (h : (b.map Prod.fst).Nodup) : ((insertStep b p).map Prod.fst).Nodup := by
  unfold insertStep
  split
  · by_cases hg : getVal b p.1 = none
    · rw [keys_setVal_not_mem b p.1 p.2 hg]
      have hnm : p.1 ∉ b.map Prod.fst := (getVal_eq_none_iff b p.1).mp hg
      refine List.Nodup.append h (List.nodup_singleton p.1) ?_
      intro a ha hb
      rw [List.mem_singleton] at hb
      exact hnm (hb ▸ ha)
    · rw [keys_setVal_mem b p.1 p.2 hg]
      exact h
  · exact h

theorem nodup_foldl_insertStep (ps : List (FactKey × PyFloat)) (b : BestMap)
    (h : (b.map Prod.fst).Nodup) : ((ps.foldl insertStep b).map Prod.fst).Nodup := by
  induction ps generalizing b with
  | nil => exact h
  | cons p ps ih => exact ih (insertStep b p) (nodup_insertStep b p h)

theorem getVal_foldl_insertStep (ps : List (FactKey × PyFloat)) (b : BestMap) (k : FactKey) :
    getVal (ps.foldl insertStep b) k = accWeights (weightsFor k ps) (getVal b k) := by
  induction ps generalizing b with
  | nil => rfl
  | cons p ps ih =>
    rw [List.foldl_cons, ih]
    by_cases hk : p.1 = k
    · have hw : weightsFor k (p :: ps) = p.2 :: weightsFor k ps := by
        simp [weightsFor, hk]
      rw [hw]
      show accWeights (weightsFor k ps) (getVal (insertStep b p) k) =
        accWeights (weightsFor k ps)
          (if (getVal b k).getD (-1.0) < p.2 then some p.2 else getVal b k)
      congr 1
      unfold insertStep bestGetD
      subst hk
      split
      · exact getVal_setVal_self b p.1 p.2
      · rfl
    · have hw : weightsFor k (p :: ps) = weightsFor k ps := by
        simp [weightsFor, hk]
      rw [hw]
      congr 1
      unfold insertStep
      split
      · exact getVal_setVal_ne b p.2 hk
      · rfl

theorem accWeights_some_ne_none (ws : List PyFloat) (a : PyFloat) :
    accWeights ws (some a) ≠ none := by
  induction ws generalizing a with
  | nil => simp [accWeights]
  | cons u ws ih =>
    show accWeights ws (if (some a).getD (-1.0) < u then some u else some a) ≠ none
    split
    · exact ih u
    · exact ih a

theorem accWeights_some_spec (ws : List PyFloat) :
    ∀ a w, accWeights ws (some a) = some w →
      (w = a ∨ w ∈ ws) ∧ a ≤ w ∧ ∀ v ∈ ws, v ≤ w := by
  induction ws with
  | nil =>
    intro a w h
    simp [accWeights] at h
    subst h
    exact ⟨Or.inl rfl, PyFloat.le_rfl' a, by simp⟩
  | cons u ws ih =>
    intro a w h
    have h' : accWeights ws (if a < u then some u else some a) = some w := h
    by_cases hu : a < u
    · rw [if_pos hu] at h'
      obtain ⟨hm, hle, hb⟩ := ih u w h'
      refine ⟨?_, PyFloat.le_trans' (PyFloat.le_of_lt' hu) hle, ?_⟩
      · rcases hm with hm | hm
        · exact Or.inr (by simp [hm])
        · exact Or.inr (by simp [hm])
      · intro v hv
        rcases List.mem_cons.mp hv with hv | hv
        · exact hv ▸ hle
        · exact hb v hv
    · rw [if_neg hu] at h'
      obtain ⟨hm, hle, hb⟩ := ih a w h'
      refine ⟨?_, hle, ?_⟩
      · rcases hm with hm | hm
        · exact Or.inl hm
        · exact Or.inr (by simp [hm])
      · intro v hv
        rcases List.mem_cons.mp hv with hv | hv
        · exact hv ▸ PyFloat.le_trans' (PyFloat.le_of_not_lt' hu) hle
        · exact hb v hv

theorem accWeights_none_spec (ws : List PyFloat) :
    ∀ w, accWeights ws none = some w →
      w ∈ ws ∧ (-1.0 : PyFloat) < w ∧ ∀ v ∈ ws, v ≤ w := by
  induction ws with
  | nil =>
    intro w h
    simp [accWeights] at h
  | cons u ws ih =>
    intro w h
    have h' : accWeights ws (if (-1.0 : PyFloat) < u then some u else none) = some w := h
    by_cases hu : (-1.0 : PyFloat) < u
    · rw [if_pos hu] at h'
      obtain ⟨hm, hle, hb⟩ := accWeights_some_spec ws u w h'
      refine ⟨?_, ?_, ?_⟩
      · rcases hm with hm | hm
        · exact hm ▸ List.mem_cons_self u ws
        · exact List.mem_cons_of_mem u hm
      · exact PyFloat.lt_of_lt_of_le' hu hle
      · intro v hv
        rcases List.mem_cons.mp hv with hv | hv
        · exact hv ▸ hle
        · exact hb v hv
    · rw [if_neg hu] at h'
      obtain ⟨hm, hlt, hb⟩ := ih w h'
      refine ⟨List.mem_cons_of_mem u hm, hlt, ?_⟩
      intro v hv
      rcases List.mem_cons.mp hv with hv | hv
      · exact hv ▸ PyFloat.le_of_lt' (PyFloat.lt_of_le_of_lt' (PyFloat.le_of_not_lt' hu) hlt)
      · exact hb v hv

theorem accWeights_none_eq_none (ws : List PyFloat) (h : accWeights ws none = none) :
    ∀ v ∈ ws, v ≤ (-1.0 : PyFloat) := by
  induction ws with
  | nil => simp
  | cons u ws ih =>
    have h' : accWeights ws (if (-1.0 : PyFloat) < u then some u else none) = none := h
    by_cases hu : (-1.0 : PyFloat) < u
    · rw [if_pos hu] at h'
      exact absurd h' (accWeights_some_ne_none ws u)
    · rw [if_neg hu] at h'
      intro v hv
      rcases List.mem_cons.mp hv with hv | hv
      · exact hv ▸ PyFloat.le_of_not_lt' hu
      · exact ih h' v hv


/- ### Bridging the interleaved pipeline to the gathered pair stream -/

theorem exBind_ok {ε α β : Type} (a : α) (f : α → Except ε β) :
    (Except.ok a >>= f) = f a := rfl

theorem exBind_error {ε α β : Type} (er : ε) (f : α → Except ε β) :
    ((Except.error er : Except ε α) >>= f) = Except.error er := rfl

theorem exMap_ok {ε α β : Type} (a : α) (f : α → β) :
    (Except.ok a : Except ε α).map f = Except.ok (f a) := rfl

theorem exMap_error {ε α β : Type} (er : ε) (f : α → β) :
    (Except.error er : Except ε α).map f = Except.error er := rfl

theorem stepEdge_eq (rels : List String) (minw : PyFloat) (b : BestMap) (e : Json) :
    stepEdge rels minw b e =
      (edgeKeptPair rels minw e).map (fun o => (o.map (insertStep b)).getD b) := by
  unfold stepEdge edgeKeptPair add_edge_fact
  rcases hk : keep_edge rels minw e with ek | bk
  · simp only [hk, exBind_error, exMap_error]
  · rcases bk with _ | _
    · simp only [hk, exBind_ok, Bool.false_eq_true, if_false]
      rfl
    · simp only [hk, exBind_ok, if_true]
      rcases h1 : pyGetD e "start" Json.objNil with e1 | v1
      · simp only [h1, exBind_error, exMap_error]
      · simp only [h1, exBind_ok]
        rcases h2 : pyGetD e "rel" Json.objNil with e2 | v2
        · simp only [h2, exBind_error, exMap_error]
        · simp only [h2, exBind_ok]
          rcases h3 : pyGetD v2 "label" (Json.str "") with e3 | v3
          · simp only [h3, exBind_error, exMap_error]
          · simp only [h3, exBind_ok]
            rcases h4 : pyGetD e "end" Json.objNil with e4 | v4
            · simp only [h4, exBind_error, exMap_error]
            · simp only [h4, exBind_ok]
              rcases hcond : (!(_as_label v1 != "" && pyTruthy v3 && _as_label v4 != "")) with _ | _
              · simp only [hcond, Bool.false_eq_true, if_false]
                rcases h5 : _weight e with e5 | w
                · simp only [h5, exBind_error, exMap_error]
                · simp only [h5, exBind_ok]
                  rfl
              · simp only [hcond, if_true]
                rfl

theorem exPure {ε α : Type} (a : α) : (pure a : Except ε α) = Except.ok a := rfl

theorem keptPairs_cons (rels : List String) (minw : PyFloat) (e : Json) (es : List Json) :
    keptPairs rels minw (e :: es) =
      (edgeKeptPair rels minw e) >>= fun p =>
        (keptPairs rels minw es) >>= fun ps => pure (p.toList ++ ps) := rfl

theorem processEdges_eq (rels : List String) (minw : PyFloat) (es : List Json) :
    ∀ b : BestMap, processEdges rels minw b es =
      (keptPairs rels minw es).map (fun ps => ps.foldl insertStep b) := by
  induction es with
  | nil => intro b; rfl
  | cons e es ih =>
    intro b
    show (stepEdge rels minw b e) >>= (fun b' => es.foldlM (stepEdge rels minw) b') = _
    rw [stepEdge_eq, keptPairs_cons]
    rcases hp : edgeKeptPair rels minw e with ep | op
    · simp only [exMap_error, exBind_error]
    · simp only [exMap_ok, exBind_ok]
      have ihx := ih ((op.map (insertStep b)).getD b)
      rw [show (es.foldlM (stepEdge rels minw) ((op.map (insertStep b)).getD b)) =
        processEdges rels minw ((op.map (insertStep b)).getD b) es from rfl, ihx]
      rcases hps : keptPairs rels minw es with eps | ps
      · simp only [exMap_error, exBind_error]
      · simp only [exMap_ok, exBind_ok, exPure]
        rw [List.foldl_append]
        cases op <;> rfl

theorem gatherUrls_cons (fetch : String → Json) (rels : List String) (minw : PyFloat)
    (u : String) (us : List String) :
    gatherUrls fetch rels minw (u :: us) =
      (edgesOf (fetch u)) >>= fun es =>
        (keptPairs rels minw es) >>= fun ps =>
          (gatherUrls fetch rels minw us) >>= fun rest => pure (ps ++ rest) := rfl

theorem processUrls_eq (fetch : String → Json) (rels : List String) (minw : PyFloat)
    (urls : List String) :
    ∀ b : BestMap, processUrls fetch rels minw b urls =
      (gatherUrls fetch rels minw urls).map (fun ps => ps.foldl insertStep b) := by
  induction urls with
  | nil => intro b; rfl
  | cons u us ih =>
    intro b
    show ((edgesOf (fetch u)) >>= fun es => processEdges rels minw b es) >>=
        (fun b' => us.foldlM (fun b u => (edgesOf (fetch u)) >>= fun es =>
          processEdges rels minw b es) b') = _
    rw [gatherUrls_cons]
    rcases he : edgesOf (fetch u) with ee | es
    · simp only [exBind_error, exMap_error]
    · simp only [exBind_ok]
      rw [processEdges_eq]
      rcases hps : keptPairs rels minw es with eps | ps
      · simp only [exMap_error, exBind_error]
      · simp only [exMap_ok, exBind_ok]
        have ihx := ih (ps.foldl insertStep b)
        rw [show (us.foldlM (fun b u => (edgesOf (fetch u)) >>= fun es =>
            processEdges rels minw b es) (ps.foldl insertStep b)) =
          processUrls fetch rels minw (ps.foldl insertStep b) us from rfl, ihx]
        rcases hrest : gatherUrls fetch rels minw us with er | rest
        · simp only [exMap_error, exBind_error]
        · simp only [exMap_ok, exBind_ok, exPure, exMap_ok]
          rw [List.foldl_append]

theorem bestFacts_eq (fetch : String → Json) (objects : List String)
    (relations : Option (List String)) (perL pairL : Int) (minw : PyFloat) :
    bestFacts fetch objects relations perL pairL minw =
      (gatherKept fetch objects relations perL pairL minw).map
        (fun ps => ps.foldl insertStep []) := by
  unfold bestFacts gatherKept
  rcases h1 : gatherUrls fetch (resolveRelations relations) minw
      ((dedupObjects objects).map (objUrl perL)) with e1 | g1
  · simp only [processUrls_eq, h1, exMap_error, exBind_error]
  · simp only [processUrls_eq, h1, exMap_ok, exBind_ok]
    rcases h2 : gatherUrls fetch (resolveRelations relations) minw
        ((pairsOf (dedupObjects objects)).map
          (fun p => pairUrl pairL p.1 p.2)) with e2 | g2
    · simp only [h2, exMap_error, exBind_error]
    · simp only [h2, exMap_ok, exBind_ok, exPure, exMap_ok]
      rw [List.foldl_append]

/- ### Sorting, slicing, rendering: auxiliary lemmas -/

theorem insortDesc_perm (p : FactKey × PyFloat) (l : BestMap) :
    (insortDesc p l).Perm (p :: l) := by
  induction l with
  | nil => exact List.Perm.refl _
  | cons q rest ih =>
    unfold insortDesc
    split
    · exact List.Perm.refl _
    · exact (List.Perm.cons q ih).trans (List.Perm.swap p q rest)

theorem foldl_insort_perm (l : BestMap) :
    ∀ acc : BestMap, (l.foldl (fun acc p => insortDesc p acc) acc).Perm (acc ++ l) := by
  induction l with
  | nil => intro acc; simp
  | cons p l ih =>
    intro acc
    refine (ih (insortDesc p acc)).trans ?_
    refine (List.Perm.append_right l (insortDesc_perm p acc)).trans ?_
    exact List.perm_middle.symm

theorem sortByWeightDesc_perm (l : BestMap) : (sortByWeightDesc l).Perm l := by
  simpa using foldl_insort_perm l []

theorem insortDesc_sorted (p : FactKey × PyFloat) (l : BestMap)
    (h : l.Pairwise (fun a b => b.2 ≤ a.2)) :
    (insortDesc p l).Pairwise (fun a b => b.2 ≤ a.2) := by
  induction l with
  | nil => simp [insortDesc]
  | cons q rest ih =>
    rw [List.pairwise_cons] at h
    obtain ⟨hq, hrest⟩ := h
    unfold insortDesc
    split
    · rename_i hlt
      refine List.pairwise_cons.mpr ⟨?_, List.pairwise_cons.mpr ⟨hq, hrest⟩⟩
      intro x hx
      rcases List.mem_cons.mp hx with hx | hx
      · exact hx ▸ PyFloat.le_of_lt' hlt
      · exact PyFloat.le_trans' (hq x hx) (PyFloat.le_of_lt' hlt)
    · rename_i hnlt
      refine List.pairwise_cons.mpr ⟨?_, ih hrest⟩
      intro x hx
      have hx' : x ∈ p :: rest := (insortDesc_perm p rest).mem_iff.mp hx
      rcases List.mem_cons.mp hx' with hx' | hx'
      · exact hx' ▸ PyFloat.le_of_not_lt' hnlt
      · exact hq x hx'

theorem foldl_insort_sorted (l : BestMap) :
    ∀ acc : BestMap, acc.Pairwise (fun a b => b.2 ≤ a.2) →
      (l.foldl (fun acc p => insortDesc p acc) acc).Pairwise (fun a b => b.2 ≤ a.2) := by
  induction l with
  | nil => intro acc h; exact h
  | cons p l ih => intro acc h; exact ih (insortDesc p acc) (insortDesc_sorted p acc h)

theorem sortByWeightDesc_sorted (l : BestMap) :
    (sortByWeightDesc l).Pairwise (fun a b => b.2 ≤ a.2) :=
  foldl_insort_sorted l [] (List.Pairwise.nil)

theorem pySliceTo_sublist (n : Int) (l : List α) : (pySliceTo n l).Sublist l := by
  unfold pySliceTo
  split
  · exact List.take_sublist _ _
  · exact List.take_sublist _ _

theorem mapExcept_ok_length {ε α β : Type} (f : α → Except ε β) :
    ∀ (l : List α) (res : List β), mapExcept f l = .ok res → res.length = l.length := by
  intro l
  induction l with
  | nil =>
    intro res h
    simp only [mapExcept] at h
    cases h
    rfl
  | cons x xs ih =>
    intro res h
    simp only [mapExcept] at h
    rcases hx : f x with ex | y <;> rw [hx] at h
    · rw [exBind_error] at h
      cases h
    · rw [exBind_ok] at h
      rcases hxs : mapExcept f xs with exs | ys <;> rw [hxs] at h
      · rw [exBind_error] at h
        cases h
      · rw [exBind_ok, exPure] at h
        cases h
        simp [ih ys hxs]

/- ### `strip` is idempotent -/

theorem head_dropWhile_ws (l : List Char) :
    ∀ c cs, l.dropWhile pyWs = c :: cs → pyWs c = false := by
  induction l with
  | nil => intro c cs h; cases h
  | cons a l ih =>
    intro c cs h
    rw [List.dropWhile_cons] at h
    by_cases ha : pyWs a = true
    · rw [if_pos ha] at h
      exact ih c cs h
    · rw [if_neg ha] at h
      cases h
      exact Bool.eq_false_iff.mpr ha

theorem dropWhile_rdropWs (l : List Char) :
    (rdropWs (l.dropWhile pyWs)).dropWhile pyWs = rdropWs (l.dropWhile pyWs) := by
  obtain ⟨t, ht⟩ := List.rdropWhile_prefix pyWs (l.dropWhile pyWs)
  rcases hA : rdropWs (l.dropWhile pyWs) with _ | ⟨c, cs⟩
  · rfl
  · have hA' : List.rdropWhile pyWs (l.dropWhile pyWs) = c :: cs := hA
    rw [hA'] at ht
    have hX : l.dropWhile pyWs = c :: (cs ++ t) := by
      rw [← ht]
      rfl
    have hc : pyWs c = false := head_dropWhile_ws l c (cs ++ t) hX
    rw [List.dropWhile_cons, hc]
    simp

theorem pyStripList_idem (l : List Char) :
    pyStripList (pyStripList l) = pyStripList l := by
  unfold pyStripList
  rw [dropWhile_rdropWs]
  rw [show ∀ m : List Char, rdropWs m = List.rdropWhile pyWs m from fun m => rfl]
  rw [show ∀ m : List Char, rdropWs m = List.rdropWhile pyWs m from fun m => rfl]
  exact List.rdropWhile_idempotent pyWs _

theorem pyStrip_idem (s : String) : pyStrip (pyStrip s) = pyStrip s := by
  show (⟨pyStripList (String.mk (pyStripList s.data)).data⟩ : String) = _
  rw [show (String.mk (pyStripList s.data)).data = pyStripList s.data from rfl]
  rw [pyStripList_idem]
  rfl

/- ### Small bridging facts for the claim theorems -/

theorem PyFloat.lt_irrefl' (a : PyFloat) : ¬ a < a := by
  rw [PyFloat.lt_iff_toRat]
  exact lt_irrefl _

theorem pyGetD_ok_isDict {j : Json} {k : String} {d v : Json}
    (h : pyGetD j k d = .ok v) : j.isDict = true := by
  unfold pyGetD at h
  by_cases hd : j.isDict = true
  · exact hd
  · rw [if_neg hd] at h
    cases h

theorem pyGetD_ok_val {j : Json} {k : String} {d v : Json}
    (h : pyGetD j k d = .ok v) : v = jGetD j k d := by
  unfold pyGetD at h
  rw [if_pos (pyGetD_ok_isDict h)] at h
  cases h
  rfl

theorem pyGetD_of_isDict {j : Json} (k : String) (d : Json) (h : j.isDict = true) :
    pyGetD j k d = .ok (jGetD j k d) := by
  unfold pyGetD
  rw [if_pos h]
  rfl

theorem _weight_of_isDict {e : Json} (h : e.isDict = true) :
    _weight e = .ok ((pyFloat (jGetD e "weight" (Json.num 0.0))).getD 0.0) := by
  unfold _weight
  rw [pyGetD_of_isDict _ _ h]
  rfl

theorem mem_weightsFor {p : FactKey × PyFloat} {pairs : List (FactKey × PyFloat)}
    (hp : p ∈ pairs) : p.2 ∈ weightsFor p.1 pairs := by
  unfold weightsFor
  exact List.mem_map.mpr ⟨p, List.mem_filter.mpr ⟨hp, by simp⟩, rfl⟩

theorem _norm_last_stage (s : String) :
    _norm s = filterChars isIdentChar (collapseWs '_' (strLower (pyStrip s))) := rfl

theorem mem_norm_ident (s : String) :
    ∀ c ∈ (_norm s).data, isIdentChar c = true := by
  intro c hc
  rw [_norm_last_stage] at hc
  have : c ∈ (collapseWs '_' (strLower (pyStrip s))).data.filter isIdentChar := hc
  exact (List.mem_filter.mp this).2

theorem choose_article_eq (n : String) (h : pyStrip n = n) :
    _choose_article n =
      (match (strLower n).data with
        | c :: _ => if "aeiou".data.contains c then "an" else "a"
        | [] => "a") := by
  unfold _choose_article
  rw [h]
  show (match (strLower n).data with
    | [] => "a"
    | c :: _ => if "aeiou".data.contains c = true then "an" else "a") = _
  cases (strLower n).data with
  | nil => rfl
  | cons c rest => rfl

theorem maybe_article_eq (noun : String) : _maybe_article noun = maybeArticleClaim noun := by
  unfold _maybe_article maybeArticleClaim
  have hidem : pyStrip (pyStrip noun) = pyStrip noun := pyStrip_idem noun
  by_cases h0 : pyStrip noun = ""
  · simp [h0]
  · rcases h1 : startsWithAny (strLower (pyStrip noun))
        ["a ", "an ", "the ", "this ", "that ", "these ", "those "] with _ | _
    · rcases hs : pyEndsWith (strLower (pyStrip noun)) "s" with _ | _
      · simp [h0, h1, hs, choose_article_eq (pyStrip noun) hidem]
      · rcases hss : pyEndsWith (strLower (pyStrip noun)) "ss" with _ | _
        · rcases hus : pyEndsWith (strLower (pyStrip noun)) "us" with _ | _
          · simp [h0, h1, hs, hss, hus]
          · simp [h0, h1, hs, hss, hus, choose_article_eq (pyStrip noun) hidem]
        · simp [h0, h1, hs, hss, choose_article_eq (pyStrip noun) hidem]
    · simp [h0, h1]

theorem relMem_iff (v : Json) (rels : List String) :
    relMem v rels = true ↔ ∃ s, v = Json.str s ∧ s ∈ rels := by
  cases v with
  | str s =>
    show rels.contains s = true ↔ _
    rw [show rels.contains s = List.elem s rels from rfl, List.elem_iff]
    constructor
    · intro h
      exact ⟨s, rfl, h⟩
    · rintro ⟨t, ht, hm⟩
      cases ht
      exact hm
  | null => simp [relMem]
  | bool b => simp [relMem]
  | num q => simp [relMem]
  | arrNil => simp [relMem]
  | arrCons x r => simp [relMem]
  | objNil => simp [relMem]
  | objCons k x r => simp [relMem]

/- ### Claim theorems -/

/-- Claim C1, as stated, is false: the fallback template applies the
article heuristic to the subject, so `(hot, Antonym, cold)` renders as
"A hot Antonym cold.", not "Hot Antonym cold.". -/
theorem c1_fallback_counterexample :
    _edge_to_sentence "hot" "Antonym" "cold" = .ok "A hot Antonym cold." ∧
    (Except.ok "A hot Antonym cold." : Except PyError String) ≠ .ok "Hot Antonym cold." :=
  ⟨by decide, by decide⟩

/-- Claim C1 amended: for a relation label outside the nine known
templates, the renderer uses the fallback "{article-ised subject}
{relation label verbatim} {object}" (the article heuristic is applied to
the subject, the object is unarticled); in particular `(hot, Antonym,
cold)` renders as exactly "A hot Antonym cold.". -/
theorem c1_fallback_amended :
    (∀ s r o, relTemplate r = none → _edge_to_sentence s r o = fallbackSentence s r o) ∧
    _edge_to_sentence "hot" "Antonym" "cold" = .ok "A hot Antonym cold." := by
  constructor
  · intro s r o h
    unfold _edge_to_sentence edgeSentenceCore fallbackSentence
    simp only [h]
  · decide

/-- Witness for `c1_fallback_amended` at the concrete unknown relation
"Antonym". -/
theorem c1_fallback_amended_witness :
    relTemplate "Antonym" = none ∧
      _edge_to_sentence "hot" "Antonym" "cold" = fallbackSentence "hot" "Antonym" "cold" :=
  ⟨rfl, c1_fallback_amended.1 "hot" "Antonym" "cold" rfl⟩

/-- Claim C6: each of the nine known relations renders with its listed
template (underscores despaced, article heuristic, whitespace collapse,
sentence case, one trailing period), and the end-to-end mocked scenario
`objects = ["dog", "park"]` with the single AtLocation edge of weight
3.2 under the default configuration yields exactly
`["A dog is often found in a park."]`. -/
theorem c6_templates_and_scenario :
    _edge_to_sentence "dog" "IsA" "animal" = .ok "A dog is an animal." ∧
    _edge_to_sentence "wheel" "PartOf" "car" = .ok "A wheel is part of a car." ∧
    _edge_to_sentence "dog" "HasA" "tail" = .ok "A dog has a tail." ∧
    _edge_to_sentence "knife" "UsedFor" "cutting" = .ok "A knife is used for cutting." ∧
    _edge_to_sentence "dog" "CapableOf" "bark" = .ok "A dog can bark." ∧
    _edge_to_sentence "book" "ReceivesAction" "read" = .ok "A book can be read." ∧
    _edge_to_sentence "dog" "AtLocation" "park" = .ok "A dog is often found in a park." ∧
    _edge_to_sentence "chair" "LocatedNear" "table" = .ok "A chair is often near a table." ∧
    _edge_to_sentence "fire" "HasProperty" "hot" = .ok "A fire can be hot." ∧
    get_conceptnet_facts_for_image oracleDogPark ["dog", "park"] none 25 25 1.0 40 =
      .ok ["A dog is often found in a park."] :=
  ⟨by decide, by decide, by decide, by decide, by decide, by decide, by decide,
    by decide, by decide, by decide⟩

/-- Claim C7: `_norm` maps "Golden Retriever" to "golden_retriever" and
"café!!" to "caf"; empty or entirely-invalid input yields the empty
string without error; and every character of any output lies in
`[a-z0-9_]`. -/
theorem c7_norm_spec :
    _norm "Golden Retriever" = "golden_retriever" ∧
    _norm "café!!" = "caf" ∧
    _norm "" = "" ∧
    _norm "!!!" = "" ∧
    ∀ s : String, ∀ c ∈ (_norm s).data, isIdentChar c = true :=
  ⟨by decide, by decide, by decide, by decide, mem_norm_ident⟩

/-- Witness for `c7_norm_spec` at a concrete input and character. -/
theorem c7_norm_spec_witness : isIdentChar 'g' = true :=
  c7_norm_spec.2.2.2.2 "Golden Retriever" 'g' (by decide)

/-- Claim C9, as stated, is false: `_maybe_article` trims its argument,
so on the phrase " cats" (which ends in "s" and should be returned
unchanged per the claim) it returns "cats", not the phrase itself. -/
theorem c9_article_counterexample :
    _maybe_article " cats" = "cats" ∧ " cats" ≠ "cats" :=
  ⟨by decide, by decide⟩

/-- Claim C9 amended: `_maybe_article` operates on the trimmed phrase
and returns the trimmed phrase unchanged when it is empty, starts
(lowercased) with a determiner word followed by a space, or ends in "s"
but not "ss"/"us"; otherwise it prepends "an" when the first lowercased
character is a vowel and "a" otherwise.  The four spec examples hold. -/
theorem c9_article_amended :
    (∀ noun, _maybe_article noun = maybeArticleClaim noun) ∧
    _maybe_article "apple" = "an apple" ∧
    _maybe_article "dog" = "a dog" ∧
    _maybe_article "the park" = "the park" ∧
    _maybe_article "cats" = "cats" :=
  ⟨maybe_article_eq, by decide, by decide, by decide, by decide⟩

/-- Claim C10: passing an empty relation set behaves exactly like
passing no relation set at all — the falsy `or` makes the default
nine-relation set apply, for every oracle, object list and
configuration. -/
theorem c10_empty_relations_default :
    ∀ (fetch : String → Json) (objects : List String) (perL pairL : Int)
      (minw : PyFloat) (maxF : Int),
      get_conceptnet_facts_for_image fetch objects (some []) perL pairL minw maxF =
        get_conceptnet_facts_for_image fetch objects none perL pairL minw maxF := by
  intro fetch objects perL pairL minw maxF
  rfl

/-- Claim C2, as stated, is false: an edge whose `"rel"` field is
present but not an object makes `e.get("rel", {}).get("label")` raise
`AttributeError`, which propagates out of the top-level function instead
of the edge being silently dropped. -/
theorem c2_malformed_rel_counterexample :
    get_conceptnet_facts_for_image oracleRelString ["dog"] none 25 25 1.0 40 =
      .error .attributeError := by
  decide

/-- Claim C2 amended: an edge record whose `"rel"` field is absent or an
object (so the label lookups succeed) and whose subject label, relation
label or object label is missing or resolves to a falsy value is
silently dropped — processing it leaves the accumulation map unchanged
and raises nothing; but a present non-object `"rel"` field raises
`AttributeError` (see the counterexample). -/
theorem c2_malformed_edge_amended :
    ∀ (rels : List String) (minw : PyFloat) (b : BestMap) (e relObj lblD : Json)
      (es : List Json),
      pyGetD e "rel" Json.objNil = .ok relObj →
      pyGetD relObj "label" (Json.str "") = .ok lblD →
      (_as_label (jGetD e "start" Json.objNil) != "" && pyTruthy lblD &&
        _as_label (jGetD e "end" Json.objNil) != "") = false →
      stepEdge rels minw b e = .ok b ∧
        processEdges rels minw b (e :: es) = processEdges rels minw b es := by
  intro rels minw b e relObj lblD es h1 h2 h3
  have eD : e.isDict = true := pyGetD_ok_isDict h1
  have rD : relObj.isDict = true := pyGetD_ok_isDict h2
  have hstep : stepEdge rels minw b e = .ok b := by
    unfold stepEdge keep_edge add_edge_fact
    rw [h1]
    simp only [exBind_ok]
    rw [show pyGet relObj "label" = pyGetD relObj "label" Json.null from rfl,
      pyGetD_of_isDict "label" Json.null rD]
    simp only [exBind_ok]
    rcases hm : relMem (jGetD relObj "label" Json.null) rels with _ | _
    · simp only [hm, Bool.false_eq_true, if_false, exBind_ok, exPure]
    · simp only [hm, if_true]
      rw [_weight_of_isDict eD]
      simp only [exBind_ok, exPure]
      rcases hw : decide (minw ≤ (pyFloat (jGetD e "weight" (Json.num 0.0))).getD 0.0) with _ | _
      · simp only [hw, Bool.false_eq_true, if_false]
      · simp only [hw, if_true]
        rw [pyGetD_of_isDict "start" Json.objNil eD]
        simp only [exBind_ok]
        rw [h2]
        simp only [exBind_ok]
        rw [pyGetD_of_isDict "end" Json.objNil eD]
        simp only [exBind_ok]
        rw [h3]
        simp only [Bool.not_false, if_true]
  refine ⟨hstep, ?_⟩
  show (e :: es).foldlM (stepEdge rels minw) b = _
  rw [List.foldlM_cons, hstep]
  rfl

/-- Witness for `c2_malformed_edge_amended`: the edge with no `"start"`
field is dropped without error. -/
theorem c2_malformed_edge_amended_witness :
    stepEdge DEFAULT_RELATIONS 1.0 [] edgeMissingStart = .ok [] :=
  (c2_malformed_edge_amended DEFAULT_RELATIONS 1.0 [] edgeMissingStart
    (Json.jobj [("label", Json.str "IsA")]) (Json.str "IsA") []
    (by decide) (by decide) (by decide)).1

/-- Claim C3, as stated, is false in one corner: with `min_weight =
-2.0`, the edge of weight `-1.5` passes the filter, its key has no
entry, and yet no entry is created — `best.get(key, -1.0)` makes the
update `w > -1.0` fail, so the fact silently disappears from the
output. -/
theorem c3_sentinel_counterexample :
    keep_edge DEFAULT_RELATIONS (-2.0) edgeNegWeight = .ok true ∧
    bestFacts oracleNegWeight ["dog"] none 25 25 (-2.0) = .ok [] ∧
    get_conceptnet_facts_for_image oracleNegWeight ["dog"] none 25 25 (-2.0) 40 = .ok [] :=
  ⟨by decide, by decide, by decide⟩

/-- Claim C3 amended: the accumulation map never holds two entries for
one key (nor does the ranked output), each stored weight is the maximum
weight observed for its key across both fetch phases and exceeds the
`-1.0` sentinel, and every filtered edge whose weight exceeds `-1.0`
has an entry for its key; in particular the `(dog, IsA, animal)`
2.0/5.0 scenario yields exactly one fact of weight 5.0. -/
theorem c3_dedup_max_amended :
    (∀ (fetch : String → Json) (objects : List String) (relations : Option (List String))
        (perL pairL : Int) (minw : PyFloat) (maxF : Int)
        (best pairs rk : List (FactKey × PyFloat)),
      bestFacts fetch objects relations perL pairL minw = .ok best →
      gatherKept fetch objects relations perL pairL minw = .ok pairs →
      rankedFacts fetch objects relations perL pairL minw maxF = .ok rk →
        (best.map Prod.fst).Nodup ∧
        (rk.map Prod.fst).Nodup ∧
        (∀ k w, getVal best k = some w →
          w ∈ weightsFor k pairs ∧ (-1.0 : PyFloat) < w ∧ ∀ v ∈ weightsFor k pairs, v ≤ w) ∧
        (∀ p ∈ pairs, (-1.0 : PyFloat) < p.2 → ¬ getVal best p.1 = none)) ∧
    bestFacts oracleDedup ["dog"] none 25 25 1.0 =
      .ok [(("dog", Json.str "IsA", "animal"), 5.0)] := by
  constructor
  · intro fetch objects relations perL pairL minw maxF best pairs rk hbest hgather hrank
    have hb := bestFacts_eq fetch objects relations perL pairL minw
    rw [hbest, hgather, exMap_ok] at hb
    have hbe : best = pairs.foldl insertStep [] := Except.ok.inj hb
    have hnodup : (best.map Prod.fst).Nodup := by
      rw [hbe]
      exact nodup_foldl_insertStep pairs [] (by simp)
    refine ⟨hnodup, ?_, ?_, ?_⟩
    · unfold rankedFacts at hrank
      rw [hbest, exMap_ok] at hrank
      have hrk : rk = pySliceTo maxF (sortByWeightDesc best) := (Except.ok.inj hrank).symm
      have hperm : ((sortByWeightDesc best).map Prod.fst).Perm (best.map Prod.fst) :=
        (sortByWeightDesc_perm best).map Prod.fst
      have hsortnodup : ((sortByWeightDesc best).map Prod.fst).Nodup :=
        (hperm.nodup_iff).mpr hnodup
      rw [hrk]
      exact List.Nodup.sublist ((pySliceTo_sublist maxF _).map Prod.fst) hsortnodup
    · intro k w h
      rw [hbe, getVal_foldl_insertStep] at h
      exact accWeights_none_spec (weightsFor k pairs) w h
    · intro p hp hlt hnone
      rw [hbe, getVal_foldl_insertStep] at hnone
      have hle := accWeights_none_eq_none (weightsFor p.1 pairs) hnone p.2 (mem_weightsFor hp)
      exact PyFloat.lt_irrefl' p.2 (PyFloat.lt_of_le_of_lt' hle hlt)
  · decide

/-- Witness for `c3_dedup_max_amended` at the concrete deduplication
scenario. -/
theorem c3_dedup_max_amended_witness :
    ([(("dog", Json.str "IsA", "animal"), (5.0 : PyFloat))].map Prod.fst).Nodup :=
  (c3_dedup_max_amended.1 oracleDedup ["dog"] none 25 25 1.0 40
    [(("dog", Json.str "IsA", "animal"), 5.0)]
    [(("dog", Json.str "IsA", "animal"), 2.0), (("dog", Json.str "IsA", "animal"), 5.0)]
    [(("dog", Json.str "IsA", "animal"), 5.0)]
    (by decide) (by decide) (by decide)).1

/-- Claim C4, as stated, is false for negative `max_facts`: Python's
slice `[:-1]` drops one element from the end instead of truncating to a
non-positive count, so with two collected facts and `max_facts = -1`
the output still holds one sentence, and `1 ≤ -1` fails. -/
theorem c4_negative_max_facts_counterexample :
    get_conceptnet_facts_for_image oracleTwoFacts ["dog"] none 25 25 1.0 (-1) =
      .ok ["A dog is an animal."] ∧
    ¬ (((["A dog is an animal."] : List String).length : Int) ≤ -1) :=
  ⟨by decide, by decide⟩

/-- Claim C4 amended: for every non-negative `max_facts`, every input
and every set of remote responses, the returned sentence list has
length at most `max_facts`. -/
theorem c4_max_facts_amended :
    ∀ (fetch : String → Json) (objects : List String) (relations : Option (List String))
      (perL pairL : Int) (minw : PyFloat) (maxF : Int) (ss : List String),
      0 ≤ maxF →
      get_conceptnet_facts_for_image fetch objects relations perL pairL minw maxF = .ok ss →
      (ss.length : Int) ≤ maxF := by
  intro fetch objects relations perL pairL minw maxF ss hmax h
  unfold get_conceptnet_facts_for_image at h
  rcases hr : rankedFacts fetch objects relations perL pairL minw maxF with er | rk <;>
    rw [hr] at h
  · rw [exBind_error] at h
    cases h
  · rw [exBind_ok] at h
    have hlen := mapExcept_ok_length _ rk ss h
    unfold rankedFacts at hr
    rcases hb : bestFacts fetch objects relations perL pairL minw with eb | best <;>
      rw [hb] at hr
    · rw [exMap_error] at hr
      cases hr
    · rw [exMap_ok] at hr
      have hrk : rk = pySliceTo maxF (sortByWeightDesc best) := (Except.ok.inj hr).symm
      have h3 : rk.length ≤ maxF.toNat := by
        rw [hrk]
        unfold pySliceTo
        rw [if_pos hmax]
        simp [List.length_take]
      have h4 : ((maxF.toNat : Int)) = maxF := Int.toNat_of_nonneg hmax
      omega

/-- Witness for `c4_max_facts_amended` at the concrete two-fact run
with the default `max_facts = 40`. -/
theorem c4_max_facts_amended_witness :
    ((["A dog is an animal.", "A dog has a tail."] : List String).length : Int) ≤ 40 :=
  c4_max_facts_amended oracleTwoFacts ["dog"] none 25 25 1.0 40
    ["A dog is an animal.", "A dog has a tail."] (by decide) (by decide)

/-- Claim C5: the ranked fact list carries non-increasing weights, and
the sentences of the top-level function are rendered from exactly that
list in that order. -/
theorem c5_sentences_sorted_desc :
    ∀ (fetch : String → Json) (objects : List String) (relations : Option (List String))
      (perL pairL : Int) (minw : PyFloat) (maxF : Int) (rk : BestMap),
      rankedFacts fetch objects relations perL pairL minw maxF = .ok rk →
        (rk.map Prod.snd).Pairwise (fun a b => b ≤ a) ∧
        get_conceptnet_facts_for_image fetch objects relations perL pairL minw maxF =
          (rankedFacts fetch objects relations perL pairL minw maxF) >>=
            mapExcept (fun en => edgeSentenceCore en.1.1 en.1.2.1 en.1.2.2) := by
  intro fetch objects relations perL pairL minw maxF rk h
  constructor
  · unfold rankedFacts at h
    rcases hb : bestFacts fetch objects relations perL pairL minw with eb | best <;>
      rw [hb] at h
    · rw [exMap_error] at h
      cases h
    · rw [exMap_ok] at h
      have hrk : rk = pySliceTo maxF (sortByWeightDesc best) := (Except.ok.inj h).symm
      rw [hrk, List.pairwise_map]
      exact List.Pairwise.sublist (pySliceTo_sublist maxF _) (sortByWeightDesc_sorted best)
  · rfl

/-- Witness for `c5_sentences_sorted_desc` at the concrete two-fact
run (weights 5.0 then 2.0). -/
theorem c5_sentences_sorted_desc_witness :
    (([(("dog", Json.str "IsA", "animal"), (5.0 : PyFloat)),
       (("dog", Json.str "HasA", "tail"), (2.0 : PyFloat))].map Prod.snd).Pairwise
      (fun a b => b ≤ a)) :=
  (c5_sentences_sorted_desc oracleTwoFacts ["dog"] none 25 25 1.0 40
    [(("dog", Json.str "IsA", "animal"), 5.0), (("dog", Json.str "HasA", "tail"), 2.0)]
    (by decide)).1

/-- Claim C8: whenever its lookups succeed, `keep_edge` returns a
boolean (never an error), and it keeps an edge iff the relation label is
a string belonging to the allowed set and the weight is at least
`min_weight`; a missing weight, a `null` weight and an unparsable string
weight are all coerced to `0.0` (a numeric string parses as its value). -/
theorem c8_keep_edge_policy :
    (∀ (rels : List String) (minw : PyFloat) (e relObj lbl : Json) (w : PyFloat),
      pyGetD e "rel" Json.objNil = .ok relObj →
      pyGet relObj "label" = .ok lbl →
      _weight e = .ok w →
      ((keep_edge rels minw e = .ok true ↔
        ((∃ s, lbl = Json.str s ∧ s ∈ rels) ∧ minw ≤ w)) ∧
       (keep_edge rels minw e = .ok true ∨ keep_edge rels minw e = .ok false))) ∧
    _weight (Json.jobj []) = .ok 0.0 ∧
    _weight (Json.jobj [("weight", Json.null)]) = .ok 0.0 ∧
    _weight (Json.jobj [("weight", Json.str "abc")]) = .ok 0.0 ∧
    _weight (Json.jobj [("weight", Json.str "3.5")]) = .ok 3.5 := by
  refine ⟨?_, by decide, by decide, by decide, by decide⟩
  intro rels minw e relObj lbl w h1 h2 h3
  have hk : keep_edge rels minw e =
      (if relMem lbl rels then Except.ok (decide (minw ≤ w)) else .ok false) := by
    unfold keep_edge
    rw [h1]
    simp only [exBind_ok]
    rw [h2]
    simp only [exBind_ok]
    split
    · rw [h3]
      simp only [exBind_ok, exPure]
    · rfl
  rcases hm : relMem lbl rels with _ | _
  · have hk' : keep_edge rels minw e = .ok false := by
      rw [hk, hm]
      simp
    refine ⟨?_, Or.inr hk'⟩
    rw [hk']
    constructor
    · intro hc
      exact absurd (Except.ok.inj hc) (by decide)
    · rintro ⟨⟨s, hs, hmem⟩, _⟩
      have hcontra := (relMem_iff lbl rels).mpr ⟨s, hs, hmem⟩
      rw [hm] at hcontra
      cases hcontra
  · have hk' : keep_edge rels minw e = .ok (decide (minw ≤ w)) := by
      rw [hk, hm]
      simp
    refine ⟨?_, ?_⟩
    · rw [hk']
      constructor
      · intro hc
        exact ⟨(relMem_iff lbl rels).mp hm, of_decide_eq_true (Except.ok.inj hc)⟩
      · rintro ⟨_, hle⟩
        rw [decide_eq_true hle]
    · rcases hdec : decide (minw ≤ w) with _ | _
      · exact Or.inr (by rw [hk', hdec])
      · exact Or.inl (by rw [hk', hdec])

/-- Witness for `c8_keep_edge_policy` at the concrete AtLocation edge
of weight 3.2 against the default configuration. -/
theorem c8_keep_edge_policy_witness :
    keep_edge DEFAULT_RELATIONS 1.0 edgeDogAtLocPark = .ok true :=
  ((c8_keep_edge_policy.1 DEFAULT_RELATIONS 1.0 edgeDogAtLocPark
      (Json.jobj [("label", Json.str "AtLocation")]) (Json.str "AtLocation") 3.2
      (by decide) (by decide) (by decide)).1).mpr
    ⟨⟨"AtLocation", rfl, by decide⟩, by decide⟩
